import Mathlib

/-!
Verification development for the llmdoc repository.

The TypeScript sources are shallowly embedded:
pure functions become Lean functions over `String`, `List` and `Rat`;
the filesystem, glob expansion, regex-based import extraction and the
LLM backend are external collaborators and are modelled as oracle
functions carried in environment records; `Map` values are modelled as
association lists with JavaScript `Map` semantics (insertion order,
in-place update).  JavaScript's stable `Array.prototype.sort` is
modelled by a stable insertion sort.  Number arithmetic is modelled
over `Rat` (exact arithmetic); `Math.ceil` is `Int.ceil` and
`Math.round` is `round` (both round half up, as in JavaScript for the
nonnegative values that occur here).
-/

namespace LLMDoc

/-- Character-level backslash-to-slash translation. -/
def normChar (c : Char) : Char := if c = '\\' then '/' else c

/-- `normalizePath` from `src/scanner/index.ts`:
`filePath.split("\\").join("/")`.  Splitting on the one-character
separator `\` and joining with `/` replaces every backslash by a
slash, which is the character-wise map below. -/
def normalizePath (filePath : String) : String :=
  String.mk (filePath.toList.map normChar)

/-- Strip a single trailing slash, the effect of `replace(/\/$/, "")`. -/
def stripTrailingSlash (s : String) : String :=
  if s.toList.getLast? = some '/' then String.mk s.toList.dropLast else s

/-- `belongsToSubfolder` from `src/scanner/index.ts`:
`normalizedFile.startsWith(cleanSubfolder + "/") || normalizedFile === cleanSubfolder`.
`startsWith` is modelled as list prefix on the character lists. -/
def belongsToSubfolder (filePath subfolderPath : String) : Bool :=
  let normalizedFile := normalizePath filePath
  let cleanSubfolder := stripTrailingSlash (normalizePath subfolderPath)
  (cleanSubfolder ++ "/").toList.isPrefixOf normalizedFile.toList ||
    normalizedFile == cleanSubfolder

/-- `IndexedFile` from `src/types.ts`. -/
structure IndexedFile where
  path : String
  content : String
  directory : String
deriving DecidableEq, Repr

/-- `SubfolderConfig` from `src/types.ts` (optional fields as `Option`). -/
structure SubfolderConfig where
  path : String
  prompt : Option String := none
  outputPath : Option String := none
  existingDocs : Option String := none
  includeImports : Option Bool := none
  additionalFiles : Option (List String) := none
  importDepth : Option Nat := none
deriving DecidableEq, Repr

/-! ## JavaScript `Map` model

Association lists with `Map` semantics: `set` updates in place or
appends, `get` returns the first (unique) binding, and mutating the
array obtained from `get` updates the binding in place.  Structural
equality of `SubfolderConfig` keys models object identity: in the
source, subfolder buckets are keyed by the very config objects of the
input list. -/

/-- `Map.prototype.set`. -/
def mapSet {α β : Type} [DecidableEq α] : List (α × β) → α → β → List (α × β)
  | [], k, v => [(k, v)]
  | (k', v') :: rest, k, v =>
    if k' = k then (k, v) :: rest else (k', v') :: mapSet rest k v

/-- `Map.prototype.get`. -/
def mapGet {α β : Type} [DecidableEq α] (m : List (α × β)) (k : α) : Option β :=
  (m.find? (fun kv => kv.1 = k)).map (fun kv => kv.2)

/-- In-place update of the value stored under a key
(`grouped.get(subfolder)!.push(file)`). -/
def mapModify {α β : Type} [DecidableEq α] : List (α × β) → α → (β → β) → List (α × β)
  | [], _, _ => []
  | (k', v') :: rest, k, g =>
    if k' = k then (k', g v') :: rest else (k', v') :: mapModify rest k g

/-! ## Subfolder grouping (`groupFilesBySubfolder` in `src/scanner/index.ts`) -/

/-- The initialization loop: `for (const subfolder of subfolders) grouped.set(subfolder, [])`. -/
def initGroups : List SubfolderConfig → List (SubfolderConfig × List IndexedFile) →
    List (SubfolderConfig × List IndexedFile)
  | [], m => m
  | s :: ss, m => initGroups ss (mapSet m s [])

/-- The comparison used by
`sort((a, b) => b.path.length - a.path.length)`: `a` may stay before
`b` when `a`'s path is at least as long. -/
def byPathLenDesc (a b : SubfolderConfig) : Prop := b.path.length ≤ a.path.length

instance : DecidableRel byPathLenDesc := fun a b => Nat.decLe b.path.length a.path.length

instance : IsTotal SubfolderConfig byPathLenDesc :=
  ⟨fun a b => Nat.le_total b.path.length a.path.length⟩

instance : IsTrans SubfolderConfig byPathLenDesc :=
  ⟨fun _ _ _ hab hbc => Nat.le_trans hbc hab⟩

/-- The sorted subfolder list
(`[...subfolders].sort((a, b) => b.path.length - a.path.length)`);
JavaScript's stable sort is modelled by a stable insertion sort. -/
def sortedSubfolders (subfolders : List SubfolderConfig) : List SubfolderConfig :=
  List.insertionSort byPathLenDesc subfolders

/-- The inner loop of the assignment phase: the `break` makes it a
first-match search over the sorted subfolders. -/
def chooseSubfolder (sorted : List SubfolderConfig) (p : String) : Option SubfolderConfig :=
  sorted.find? (fun s => belongsToSubfolder p s.path)

/-- The assignment loop of `groupFilesBySubfolder`: for each file, the
first matching subfolder in the sorted list receives the file, and the
file's path is recorded as assigned. -/
def assignFiles (sorted : List SubfolderConfig) :
    List IndexedFile → List (SubfolderConfig × List IndexedFile) × List String →
    List (SubfolderConfig × List IndexedFile) × List String
  | [], st => st
  | f :: fs, st =>
    match chooseSubfolder sorted f.path with
    | some s =>
      assignFiles sorted fs (mapModify st.1 s (fun b => b ++ [f]), st.2 ++ [f.path])
    | none => assignFiles sorted fs st

/-- `groupFilesBySubfolder` from `src/scanner/index.ts`. -/
def groupFilesBySubfolder (files : List IndexedFile) (subfolders : List SubfolderConfig) :
    List (SubfolderConfig × List IndexedFile) × List IndexedFile :=
  let grouped0 := initGroups subfolders []
  let st := assignFiles (sortedSubfolders subfolders) files (grouped0, [])
  let ungrouped := files.filter (fun f => !(st.2.contains f.path))
  (st.1, ungrouped)

/-! ## Recursive import resolution (`resolveImportsForFiles` in `src/scanner/index.ts`)

The import extraction (regular expressions over the file content), the
path resolution against the filesystem (`resolveImportPath`, which
closes over `rootDir`), reading a file and `dirname` are external
collaborators, modelled as oracles. -/

/-- The filesystem/parsing collaborators of the scanner. -/
structure ScanEnv where
  extractImports : String → List String
  resolveImportPath : String → String → Option String
  readFile : String → Option String
  dirname : String → String

/-- One iteration of the inner import loop of `resolveImportsForFiles`:
resolve the import, skip unresolved / already-present / already-processed
paths, otherwise record the path as processed and emit the file found
in `allFiles` (or, when absent there but its normalized path is in
`allFilePaths`, a freshly read file; a failed read emits nothing). -/
def resolveOneImport (env : ScanEnv) (allFiles : List IndexedFile)
    (allFilePaths currentFilePaths : List String) (fromPath : String)
    (st : List String × List IndexedFile) (importPath : String) :
    List String × List IndexedFile :=
  match env.resolveImportPath importPath fromPath with
  | none => st
  | some resolvedPath =>
    let nr := normalizePath resolvedPath
    if currentFilePaths.contains nr || st.1.contains nr then st
    else
      let processed := st.1 ++ [nr]
      match allFiles.find? (fun f => normalizePath f.path == nr) with
      | some importedFile => (processed, st.2 ++ [importedFile])
      | none =>
        if allFilePaths.contains nr then
          match env.readFile resolvedPath with
          | some content =>
            (processed,
              st.2 ++ [⟨nr, content, normalizePath (env.dirname resolvedPath)⟩])
          | none => (processed, st.2)
        else (processed, st.2)

/-- The inner loop over one file's imports. -/
def processImportList (env : ScanEnv) (allFiles : List IndexedFile)
    (allFilePaths currentFilePaths : List String) (fromPath : String) :
    List String → List String × List IndexedFile → List String × List IndexedFile
  | [], st => st
  | imp :: rest, st =>
    processImportList env allFiles allFilePaths currentFilePaths fromPath rest
      (resolveOneImport env allFiles allFilePaths currentFilePaths fromPath st imp)

/-- The outer loop over the frontier files. -/
def processFiles (env : ScanEnv) (allFiles : List IndexedFile)
    (allFilePaths currentFilePaths : List String) :
    List IndexedFile → List String × List IndexedFile → List String × List IndexedFile
  | [], st => st
  | f :: fs, st =>
    processFiles env allFiles allFilePaths currentFilePaths fs
      (processImportList env allFiles allFilePaths currentFilePaths f.path
        (env.extractImports f.content) st)

/-- `resolveImportsForFiles` from `src/scanner/index.ts`.  `rootDir` is
absorbed into the oracles of `env`. -/
def resolveImportsForFiles (env : ScanEnv) :
    List IndexedFile → List IndexedFile → Nat → List IndexedFile
  | _, _, 0 => []
  | files, allFiles, depth + 1 =>
    let allFilePaths := allFiles.map (fun f => normalizePath f.path)
    let currentFilePaths := files.map (fun f => normalizePath f.path)
    let importedFiles :=
      (processFiles env allFiles allFilePaths currentFilePaths files ([], [])).2
    if 0 < importedFiles.length ∧ 1 < depth + 1 then
      importedFiles ++
        resolveImportsForFiles env importedFiles (allFiles ++ importedFiles) depth
    else importedFiles

/-! ## Token estimation (`src/utils/tokens.ts`) -/

/-- The `TOKENS_PER_CHAR` constant table. -/
structure TokensPerChar where
  code : ℚ
  prose : ℚ

/-- `TOKENS_PER_CHAR` from `src/utils/tokens.ts`. -/
def TOKENS_PER_CHAR : TokensPerChar := { code := 0.35, prose := 0.25 }

/-- One row of the `MODEL_PRICING` table. -/
structure Pricing where
  input : ℚ
  output : ℚ
  context : ℕ
deriving DecidableEq, Repr

/-- `MODEL_PRICING` from `src/utils/tokens.ts`. -/
def MODEL_PRICING : List (String × Pricing) :=
  [("gpt-5", ⟨1.25, 10, 400000⟩),
   ("gpt-5-mini", ⟨0.25, 2, 400000⟩),
   ("o1-preview", ⟨15, 60, 128000⟩),
   ("o1-mini", ⟨3, 12, 128000⟩),
   ("gpt-4o", ⟨2.5, 10, 128000⟩),
   ("gpt-4o-mini", ⟨0.15, 0.6, 128000⟩),
   ("gpt-4-turbo", ⟨10, 30, 128000⟩),
   ("claude-4-5-opus", ⟨5, 25, 200000⟩),
   ("claude-4-5-sonnet", ⟨3, 15, 200000⟩),
   ("claude-3-5-sonnet-20241022", ⟨3, 15, 200000⟩),
   ("claude-3-5-haiku-20241022", ⟨0.8, 4, 200000⟩),
   ("claude-3-opus-20240229", ⟨15, 75, 200000⟩),
   ("gemini-3-pro", ⟨2, 12, 1000000⟩),
   ("gemini-2.5-pro", ⟨1.25, 10, 1000000⟩),
   ("gemini-2.5-flash", ⟨0.3, 2.5, 1000000⟩),
   ("gemini-1.5-pro", ⟨1.25, 5, 2000000⟩),
   ("gemini-1.5-flash", ⟨0.075, 0.3, 1000000⟩),
   ("gemini-1.5-flash-8b", ⟨0.0375, 0.15, 1000000⟩),
   ("mistral-large-latest", ⟨2, 6, 128000⟩),
   ("mistral-nemo", ⟨0.15, 0.15, 128000⟩)]

/-- The two distinct warning messages of `getTokenEstimate`, abstracted
to tagged values carrying the displayed percentage (the template
strings differ only in their fixed text). -/
inductive UsageWarning where
  | highUsage (pct : ℚ)
  | critical (pct : ℚ)
deriving DecidableEq, Repr

/-- `TokenEstimate` from `src/utils/tokens.ts`. -/
structure TokenEstimate where
  characters : ℕ
  tokens : ℤ
  estimatedCost : Option ℚ := none
  contextWindow : Option ℕ := none
  contextUsagePercent : Option ℚ := none
  warning : Option UsageWarning := none
deriving DecidableEq, Repr

/-- `estimateTokens` from `src/utils/tokens.ts`:
`Math.ceil(content.length * ratio)`. -/
def estimateTokens (content : String) (isCode : Bool := true) : ℤ :=
  let ratio := if isCode then TOKENS_PER_CHAR.code else TOKENS_PER_CHAR.prose
  ⌈(content.length : ℚ) * ratio⌉

/-- Lower-casing, the effect of `toLowerCase()` on the ASCII model
names involved. -/
def toLowerStr (s : String) : String := String.mk (s.toList.map Char.toLower)

/-- JavaScript `a.includes(b)` on strings: `b` occurs as a contiguous
substring of `a`. -/
def strIncludes (a b : String) : Bool :=
  a.toList.tails.any (fun t => b.toList.isPrefixOf t)

/-- The pricing lookup of `getTokenEstimate`: exact key match first,
then the first table entry matching by case-insensitive substring
containment in either direction. -/
def findPricing (model : String) : Option Pricing :=
  match MODEL_PRICING.find? (fun kv => kv.1 == model) with
  | some kv => some kv.2
  | none =>
    let modelLower := toLowerStr model
    (MODEL_PRICING.find? (fun kv =>
      strIncludes modelLower (toLowerStr kv.1) ||
        strIncludes (toLowerStr kv.1) modelLower)).map (fun kv => kv.2)

/-- The one-decimal context-usage percentage:
`Math.round(x * 100 * 10) / 10` for `x = tokens / context`. -/
def usagePercent (tokens : ℤ) (context : ℕ) : ℚ :=
  ((round ((tokens : ℚ) / (context : ℚ) * 100 * 10) : ℤ) : ℚ) / 10

/-- `getTokenEstimate` from `src/utils/tokens.ts`, including the
warning logic exactly as written: `if (pct > 80) ... else if (pct > 95) ...`. -/
def getTokenEstimate (content : String) (model : Option String := none)
    (isCode : Bool := true) : TokenEstimate :=
  let characters := content.length
  let tokens := estimateTokens content isCode
  let base : TokenEstimate := { characters := characters, tokens := tokens }
  match model with
  | none => base
  | some m =>
    match findPricing m with
    | none => base
    | some pricing =>
      let estimatedCost := (tokens : ℚ) / 1000000 * pricing.input
      let pct := usagePercent tokens pricing.context
      let warning : Option UsageWarning :=
        if pct > 80 then some (.highUsage pct)
        else if pct > 95 then some (.critical pct)
        else none
      { characters := characters, tokens := tokens,
        estimatedCost := some estimatedCost,
        contextWindow := some pricing.context,
        contextUsagePercent := some pct,
        warning := warning }

/-- JavaScript truthiness of an optional numeric field: present and
non-zero. -/
def truthyNat : Option ℕ → Bool
  | some n => n != 0
  | none => false

/-- One step of the summation loop of `aggregateEstimates`. -/
def aggStep (total : TokenEstimate) (est : TokenEstimate) : TokenEstimate :=
  { total with
    characters := total.characters + est.characters,
    tokens := total.tokens + est.tokens,
    estimatedCost :=
      match est.estimatedCost with
      | some c => some (total.estimatedCost.getD 0 + c)
      | none => total.estimatedCost }

/-- `aggregateEstimates` from `src/utils/tokens.ts`.  The search
`estimates.find((e) => e.contextWindow)` uses JavaScript truthiness,
hence `truthyNat`. -/
def aggregateEstimates (estimates : List TokenEstimate) : TokenEstimate :=
  let total := estimates.foldl aggStep
    { characters := 0, tokens := 0, estimatedCost := some 0 }
  match estimates.find? (fun e => truthyNat e.contextWindow) with
  | none => total
  | some withContext =>
    match withContext.contextWindow with
    | none => total
    | some w =>
      let pct := usagePercent total.tokens w
      { total with
        contextWindow := some w,
        contextUsagePercent := some pct,
        warning := if pct > 80 then some (.highUsage pct) else none }

/-! ## Documentation generation (`src/generator/index.ts`)

The LLM backend and the filesystem are collaborators.  The embedding
returns, next to the documents the source function returns, the list
of computed token estimates (which the source keeps in a local array)
and a trace of the externally visible effects (LLM invocations and
file writes), so that specifications can speak about them.  The
optional logger collaborator is omitted: it receives only formatted
strings. -/

/-- `GeneratedDoc` from `src/types.ts`. -/
structure GeneratedDoc where
  outputPath : String
  content : String
  sourceFiles : List String
deriving DecidableEq, Repr

/-- `ScanResult` from `src/types.ts`; the `Map` iterates in insertion
order and is modelled as the association list that
`groupFilesBySubfolder` produces. -/
structure ScanResult where
  files : List IndexedFile
  grouped : List (SubfolderConfig × List IndexedFile)
  ungrouped : List IndexedFile

/-- The effectful actions of the generator. -/
inductive Event where
  | llmCall (prompt content : String)
  | write (path content : String)
deriving DecidableEq, Repr

/-- The LLM collaborator (`LLMService` in `src/llm/index.ts`),
as a pure oracle. -/
structure LLMOracle where
  generateDocumentation : String → String → Option String → String
  generateApiReference : String → String → Option String → String
  generateReadme : String → String → String → Option String → String

/-- Filesystem collaborators of the generator.  Paths are the
root-relative paths appearing in the source (`resolve(rootDir, p)` is
absorbed into the oracles).  `readFileT` models the `readFileSync`
call of `readExistingDoc`, which has no try/catch and is assumed to
succeed on an existing file; `glob` takes a pattern and the exclude
list. -/
structure GenEnv where
  scan : ScanEnv
  fsExists : String → Bool
  readFileT : String → String
  glob : String → List String → List String
  projectName : String

/-- The fields of the validated config that `generate` uses
(`prompt!`, `outputDir!`, `llm.model`, `exclude ?? []`). -/
structure GenConfig where
  prompt : String
  outputDir : String
  model : String
  exclude : Option (List String) := none

/-- `readExistingDoc` from `src/generator/index.ts`. -/
def readExistingDoc (env : GenEnv) (docPath : String) : Option String :=
  if env.fsExists docPath then some (env.readFileT docPath) else none

/-- `formatFilesForLLM` from `src/scanner/index.ts`. -/
def formatFilesForLLM (files : List IndexedFile) : String :=
  if files.length = 0 then "No files found."
  else
    String.intercalate "\n\n---\n\n"
      (files.map (fun file =>
        "## File: " ++ file.path ++ "\n\n```typescript\n" ++ file.content ++ "\n```"))

/-- `formatFilesWithContext` from `src/generator/index.ts`. -/
def formatFilesWithContext (mainFiles contextFiles : List IndexedFile) : String :=
  let part1 :=
    if 0 < mainFiles.length then
      "# Main Source Files\n\nThese are the primary files to document:\n\n" ++
        formatFilesForLLM mainFiles
    else ""
  let part2 :=
    if 0 < contextFiles.length then
      "\n\n---\n\n# Context Files (Imports & Dependencies)\n\n" ++
        "These files are imported/used by the main files. Use them for context to understand types, interfaces, and dependencies:\n\n" ++
        formatFilesForLLM contextFiles
    else ""
  part1 ++ part2

/-- The inner match loop of `loadAdditionalFiles`. -/
def loadMatches (env : GenEnv) (existingFiles : List String) :
    List String → List IndexedFile → List IndexedFile
  | [], acc => acc
  | m :: ms, acc =>
    let normalizedPath := normalizePath m
    if existingFiles.contains normalizedPath then loadMatches env existingFiles ms acc
    else
      match env.scan.readFile m with
      | some content =>
        let d := env.scan.dirname m
        loadMatches env existingFiles ms
          (acc ++ [⟨normalizedPath, content, normalizePath (if d == "." then "" else d)⟩])
      | none => loadMatches env existingFiles ms acc

/-- `loadAdditionalFiles` from `src/scanner/index.ts`. -/
def loadAdditionalFiles (env : GenEnv) (patterns exclude : List String)
    (existingFiles : List String) : List IndexedFile :=
  patterns.foldl (fun acc pattern => loadMatches env existingFiles (env.glob pattern exclude) acc) []

/-- The dry-run placeholder text. -/
def dryRunContent : String := "[DRY RUN - No content generated]"

/-- The context files computed by `generateSubfolderDoc`: resolved
imports (filtered against the main files) when imports are included,
then the additional glob-matched files. -/
def subfolderContextFiles (env : GenEnv) (subfolder : SubfolderConfig)
    (files allFiles : List IndexedFile) (exclude : List String) : List IndexedFile :=
  let includeImports := subfolder.includeImports != some false
  let importDepth := subfolder.importDepth.getD 2
  let contextFiles0 :=
    if includeImports then
      let importedFiles := resolveImportsForFiles env.scan files allFiles importDepth
      let mainFilePaths := files.map (fun f => f.path)
      importedFiles.filter (fun f => !(mainFilePaths.contains f.path))
    else []
  match subfolder.additionalFiles with
  | some pats =>
    if 0 < pats.length then
      let existingPaths := files.map (fun f => f.path) ++ contextFiles0.map (fun f => f.path)
      let additionalFiles := loadAdditionalFiles env pats exclude existingPaths
      if 0 < additionalFiles.length then contextFiles0 ++ additionalFiles else contextFiles0
    else contextFiles0
  | none => contextFiles0

/-- `generateSubfolderDoc` from `src/generator/index.ts`.  The result
pairs the source's `{ doc, estimate }` record with the emitted
effects; a missing LLM service at the `llmService!` call is the
thrown `TypeError`. -/
def generateSubfolderDoc (env : GenEnv) (llmService : Option LLMOracle)
    (subfolder : SubfolderConfig) (files allFiles : List IndexedFile)
    (globalPrompt : String) (exclude : List String) (model : Option String)
    (dryRun : Bool) :
    Except String ((Option GeneratedDoc × Option TokenEstimate) × List Event) :=
  if files.length = 0 then .ok ((none, none), [])
  else
    let prompt := subfolder.prompt.getD globalPrompt
    let outputPath := subfolder.outputPath.getD (subfolder.path ++ "/README.md")
    let existingDocs :=
      match subfolder.existingDocs with
      | some p => readExistingDoc env p
      | none => readExistingDoc env outputPath
    let contextFiles := subfolderContextFiles env subfolder files allFiles exclude
    let filesContent :=
      if 0 < contextFiles.length then formatFilesWithContext files contextFiles
      else formatFilesForLLM files
    let fullInput := prompt ++ "\n\n" ++ filesContent ++
      (match existingDocs with | some d => "\n\n" ++ d | none => "")
    let estimate := getTokenEstimate fullInput model true
    if dryRun then
      .ok ((some ⟨outputPath, dryRunContent,
              (files ++ contextFiles).map (fun f => f.path)⟩, some estimate), [])
    else
      match llmService with
      | none => .error "llmService is null"
      | some o =>
        let content := o.generateDocumentation prompt filesContent existingDocs
        .ok ((some ⟨outputPath, content, (files ++ contextFiles).map (fun f => f.path)⟩,
               some estimate), [.llmCall prompt filesContent])

/-- `generateUngroupedDocs` from `src/generator/index.ts`. -/
def generateUngroupedDocs (env : GenEnv) (llmService : Option LLMOracle)
    (files : List IndexedFile) (outputDir prompt : String) (model : Option String)
    (dryRun : Bool) :
    Except String ((Option GeneratedDoc × Option TokenEstimate) × List Event) :=
  if files.length = 0 then .ok ((none, none), [])
  else
    let outputPath := outputDir ++ "/api-reference.md"
    let existingDocs := readExistingDoc env outputPath
    let filesContent := formatFilesForLLM files
    let fullInput := prompt ++ "\n\n" ++ filesContent ++
      (match existingDocs with | some d => "\n\n" ++ d | none => "")
    let estimate := getTokenEstimate fullInput model true
    if dryRun then
      .ok ((some ⟨outputPath, dryRunContent, files.map (fun f => f.path)⟩,
             some estimate), [])
    else
      match llmService with
      | none => .error "llmService is null"
      | some o =>
        .ok ((some ⟨outputPath, o.generateApiReference prompt filesContent existingDocs,
               files.map (fun f => f.path)⟩, some estimate), [.llmCall prompt filesContent])

/-- `generateReadme` from `src/generator/index.ts`. -/
def generateReadme (env : GenEnv) (llmService : Option LLMOracle)
    (allFiles : List IndexedFile) (prompt : String) (model : Option String)
    (dryRun : Bool) :
    Except String ((GeneratedDoc × TokenEstimate) × List Event) :=
  let projectName := env.projectName
  let outputPath := "README.md"
  let existingReadme := readExistingDoc env outputPath
  let filesContent := formatFilesForLLM allFiles
  let fullInput := prompt ++ "\n\n" ++ filesContent ++
    (match existingReadme with | some d => "\n\n" ++ d | none => "")
  let estimate := getTokenEstimate fullInput model true
  if dryRun then
    .ok ((⟨outputPath, dryRunContent, allFiles.map (fun f => f.path)⟩, estimate), [])
  else
    match llmService with
    | none => .error "llmService is null"
    | some o =>
      .ok ((⟨outputPath, o.generateReadme prompt filesContent projectName existingReadme,
             allFiles.map (fun f => f.path)⟩, estimate), [.llmCall prompt filesContent])

/-- The subfolder loop of `DocumentationGenerator.generate`, threading
`docs`, `estimates` and the effect trace. -/
def processSubfolders (env : GenEnv) (llmService : Option LLMOracle)
    (allFiles : List IndexedFile) (prompt : String) (exclude : List String)
    (model : Option String) (dryRun : Bool) :
    List (SubfolderConfig × List IndexedFile) →
    List GeneratedDoc × List TokenEstimate × List Event →
    Except String (List GeneratedDoc × List TokenEstimate × List Event)
  | [], acc => .ok acc
  | (subfolder, files) :: rest, acc =>
    match generateSubfolderDoc env llmService subfolder files allFiles prompt exclude
        model dryRun with
    | .error e => .error e
    | .ok ((doc?, est?), ev) =>
      match doc? with
      | none =>
        processSubfolders env llmService allFiles prompt exclude model dryRun rest
          (acc.1, acc.2.1, acc.2.2 ++ ev)
      | some doc =>
        let ests := match est? with | some est => acc.2.1 ++ [est] | none => acc.2.1
        let writes := if dryRun then ([] : List Event)
          else [.write doc.outputPath doc.content]
        processSubfolders env llmService allFiles prompt exclude model dryRun rest
          (acc.1 ++ [doc], ests, acc.2.2 ++ ev ++ writes)

/-- `DocumentationGenerator.generate` from `src/generator/index.ts`.
Returns the generated docs together with the computed estimates and
the effect trace. -/
def generate (env : GenEnv) (llmService : Option LLMOracle) (config : GenConfig)
    (dryRun : Bool) (scanResult : ScanResult) :
    Except String (List GeneratedDoc × List TokenEstimate × List Event) :=
  if !dryRun && llmService.isNone then
    .error "LLM service is required when not in dry-run mode"
  else
    match processSubfolders env llmService scanResult.files config.prompt
        (config.exclude.getD []) (some config.model) dryRun scanResult.grouped
        ([], [], []) with
    | .error e => .error e
    | .ok acc1 =>
      match generateUngroupedDocs env llmService scanResult.ungrouped config.outputDir
          config.prompt (some config.model) dryRun with
      | .error e => .error e
      | .ok ((doc?, est?), ev) =>
        let acc2 : List GeneratedDoc × List TokenEstimate × List Event :=
          match doc? with
          | none => (acc1.1, acc1.2.1, acc1.2.2 ++ ev)
          | some doc =>
            let ests := match est? with | some est => acc1.2.1 ++ [est] | none => acc1.2.1
            let writes := if dryRun then ([] : List Event)
              else [.write doc.outputPath doc.content]
            (acc1.1 ++ [doc], ests, acc1.2.2 ++ ev ++ writes)
        match generateReadme env llmService scanResult.files config.prompt
            (some config.model) dryRun with
        | .error e => .error e
        | .ok ((readmeDoc, readmeEst), ev3) =>
          let writes := if dryRun then ([] : List Event)
            else [.write readmeDoc.outputPath readmeDoc.content]
          .ok (acc2.1 ++ [readmeDoc], acc2.2.1 ++ [readmeEst],
                acc2.2.2 ++ ev3 ++ writes)

/-! ## Specification-side definitions -/

/-- Invariant of the per-level state `(processedImports, importedFiles)`
of the import resolver: every emitted file's normalized path has been
recorded as processed, the emitted normalized paths are pairwise
distinct, and none of them is a (normalized) frontier path. -/
def ResolveInv (cur : List String) (st : List String × List IndexedFile) : Prop :=
  (∀ f ∈ st.2, normalizePath f.path ∈ st.1) ∧
  (st.2.map (fun f => normalizePath f.path)).Nodup ∧
  (∀ f ∈ st.2, normalizePath f.path ∉ cur)

/-- The observable identity of a generated doc apart from its content:
output path and the source-file list. -/
def docKey (d : GeneratedDoc) : String × List String := (d.outputPath, d.sourceFiles)

/-! ## Concrete inputs used by counterexamples and witnesses -/

/-- Seed file `a.ts`, whose content the import oracle reads as
`import ... from "./b"`. -/
def fileA : IndexedFile := ⟨"a.ts", "ca", ""⟩

/-- File `b.ts`, whose content the import oracle reads as
`import ... from "./a"`. -/
def fileB : IndexedFile := ⟨"b.ts", "cb", ""⟩

/-- A two-file cyclic import graph: `a.ts` imports `./b` and `b.ts`
imports `./a`, both resolvable. -/
def envCycle : ScanEnv :=
  { extractImports := fun c =>
      if c == "ca" then ["./b"] else if c == "cb" then ["./a"] else [],
    resolveImportPath := fun imp _ =>
      if imp == "./b" then some "b.ts" else if imp == "./a" then some "a.ts" else none,
    readFile := fun _ => none,
    dirname := fun _ => "" }

/-- An environment where `a.ts` imports `./b`, the import resolves to
`b.ts`, and `b.ts` exists and is readable on disk — but is not among
the known files. -/
def envFresh : ScanEnv :=
  { extractImports := fun c => if c == "ca" then ["./b"] else [],
    resolveImportPath := fun imp _ => if imp == "./b" then some "b.ts" else none,
    readFile := fun p => if p == "b.ts" then some "cb" else none,
    dirname := fun _ => "" }

/-- Subfolder configured at `src`. -/
def subSrc : SubfolderConfig := { path := "src" }

/-- Subfolder configured at `src/api`, a proper descendant of `src`. -/
def subSrcApi : SubfolderConfig := { path := "src/api" }

/-- A file lying under `src/api`. -/
def fileX : IndexedFile := ⟨"src/api/x.ts", "cx", "src/api"⟩

/-- A `TokenEstimate` whose context window is present but zero. -/
def estZeroWindow : TokenEstimate := { characters := 0, tokens := 0, contextWindow := some 0 }

/-- A `TokenEstimate` whose context window is 100. -/
def estHundredWindow : TokenEstimate :=
  { characters := 0, tokens := 0, contextWindow := some 100 }

/-- A content of 360000 characters. -/
def longContent : String := String.mk (List.replicate 360000 'a')

/-- An empty scan result. -/
def emptyScan : ScanResult := ⟨[], [], []⟩

/-- A trivial LLM oracle. -/
def constOracle : LLMOracle :=
  ⟨fun _ _ _ => "doc", fun _ _ _ => "api", fun _ _ _ _ => "readme"⟩

/-- A trivial generator environment over an empty filesystem. -/
def emptyGenEnv : GenEnv :=
  { scan := ⟨fun _ => [], fun _ _ => none, fun _ => none, fun _ => ""⟩,
    fsExists := fun _ => false,
    readFileT := fun _ => "",
    glob := fun _ _ => [],
    projectName := "proj" }

/-- A minimal validated configuration. -/
def basicConfig : GenConfig :=
  { prompt := "Document this code.", outputDir := "docs", model := "gpt-4o" }

/-! ## Association-list lemmas for the `Map` model -/

section MapLemmas

variable {α β : Type} [DecidableEq α]

theorem mapGet_nil (k : α) : mapGet ([] : List (α × β)) k = none := rfl

theorem mapGet_cons (k' : α) (v' : β) (rest : List (α × β)) (k : α) :
    mapGet ((k', v') :: rest) k = if k' = k then some v' else mapGet rest k := by
  by_cases h : k' = k
  · rw [if_pos h]
    unfold mapGet
    rw [List.find?_cons_of_pos _ (by simp [h])]
    rfl
  · rw [if_neg h]
    unfold mapGet
    rw [List.find?_cons_of_neg _ (by simp [h])]

theorem mapGet_mapSet (m : List (α × β)) (k : α) (v : β) (k' : α) :
    mapGet (mapSet m k v) k' = if k = k' then some v else mapGet m k' := by
  induction m with
  | nil => simp [mapSet, mapGet_cons, mapGet_nil]
  | cons kv rest ih =>
    obtain ⟨a, b⟩ := kv
    by_cases hak : a = k
    · rw [show mapSet ((a, b) :: rest) k v = (k, v) :: rest from by
        simp [mapSet, hak]]
      by_cases hkk : k = k'
      · rw [mapGet_cons, if_pos hkk, if_pos hkk]
      · rw [mapGet_cons, if_neg hkk, if_neg hkk, mapGet_cons, if_neg (hak ▸ hkk)]
    · rw [show mapSet ((a, b) :: rest) k v = (a, b) :: mapSet rest k v from by
        simp [mapSet, hak]]
      rw [mapGet_cons, ih]
      by_cases hak' : a = k'
      · have hkk : ¬ k = k' := fun he => hak (he ▸ hak')
        rw [if_pos hak', if_neg hkk, mapGet_cons, if_pos hak']
      · rw [if_neg hak']
        by_cases hkk : k = k'
        · rw [if_pos hkk, if_pos hkk]
        · rw [if_neg hkk, if_neg hkk, mapGet_cons, if_neg hak']

theorem mem_keys_mapSet (m : List (α × β)) (k : α) (v : β) (x : α)
    (h : x ∈ (mapSet m k v).map Prod.fst) : x ∈ m.map Prod.fst ∨ x = k := by
  induction m with
  | nil =>
    rw [show mapSet ([] : List (α × β)) k v = [(k, v)] from rfl] at h
    simp only [List.map_cons, List.map_nil, List.mem_cons, List.not_mem_nil,
      or_false] at h
    exact Or.inr h
  | cons kv rest ih =>
    obtain ⟨a, b⟩ := kv
    by_cases hak : a = k
    · rw [show mapSet ((a, b) :: rest) k v = (k, v) :: rest from by
        simp [mapSet, hak]] at h
      rw [List.map_cons, List.mem_cons] at h
      rcases h with h | h
      · exact Or.inr h
      · exact Or.inl (by rw [List.map_cons, List.mem_cons]; exact Or.inr h)
    · rw [show mapSet ((a, b) :: rest) k v = (a, b) :: mapSet rest k v from by
        simp [mapSet, hak]] at h
      rw [List.map_cons, List.mem_cons] at h
      rcases h with h | h
      · exact Or.inl (by rw [List.map_cons, List.mem_cons]; exact Or.inl h)
      · rcases ih h with h2 | h2
        · exact Or.inl (by rw [List.map_cons, List.mem_cons]; exact Or.inr h2)
        · exact Or.inr h2

theorem nodup_keys_mapSet (m : List (α × β)) (k : α) (v : β)
    (h : (m.map Prod.fst).Nodup) : ((mapSet m k v).map Prod.fst).Nodup := by
  induction m with
  | nil => simp [mapSet]
  | cons kv rest ih =>
    obtain ⟨a, b⟩ := kv
    rw [List.map_cons, List.nodup_cons] at h
    by_cases hak : a = k
    · rw [show mapSet ((a, b) :: rest) k v = (k, v) :: rest from by
        simp [mapSet, hak]]
      rw [List.map_cons, List.nodup_cons]
      exact ⟨hak ▸ h.1, h.2⟩
    · rw [show mapSet ((a, b) :: rest) k v = (a, b) :: mapSet rest k v from by
        simp [mapSet, hak]]
      rw [List.map_cons, List.nodup_cons]
      refine ⟨fun hmem => ?_, ih h.2⟩
      rcases mem_keys_mapSet rest k v a hmem with hmem | hmem
      · exact h.1 hmem
      · exact hak hmem

theorem mapGet_mapModify (m : List (α × β)) (k : α) (g : β → β) (k' : α) :
    mapGet (mapModify m k g) k' =
      if k = k' then (mapGet m k').map g else mapGet m k' := by
  induction m with
  | nil =>
    rw [show mapModify ([] : List (α × β)) k g = [] from rfl]
    split <;> rfl
  | cons kv rest ih =>
    obtain ⟨a, b⟩ := kv
    by_cases hak : a = k
    · rw [show mapModify ((a, b) :: rest) k g = (a, g b) :: rest from by
        simp [mapModify, hak]]
      by_cases hkk : k = k'
      · have hak' : a = k' := hak.trans hkk
        rw [mapGet_cons, if_pos hak', if_pos hkk, mapGet_cons, if_pos hak']
        rfl
      · have hak' : ¬ a = k' := fun he => hkk ((hak.symm.trans he))
        rw [mapGet_cons, if_neg hak', if_neg hkk, mapGet_cons, if_neg hak']
    · rw [show mapModify ((a, b) :: rest) k g = (a, b) :: mapModify rest k g from by
        simp [mapModify, hak]]
      by_cases hak' : a = k'
      · have hkk : ¬ k = k' := fun he => hak (he ▸ hak')
        rw [mapGet_cons, if_pos hak', if_neg hkk, mapGet_cons, if_pos hak']
      · rw [mapGet_cons, if_neg hak', ih]
        by_cases hkk : k = k'
        · rw [if_pos hkk, if_pos hkk, mapGet_cons, if_neg hak']
        · rw [if_neg hkk, if_neg hkk, mapGet_cons, if_neg hak']

theorem keys_mapModify (m : List (α × β)) (k : α) (g : β → β) :
    (mapModify m k g).map Prod.fst = m.map Prod.fst := by
  induction m with
  | nil => rfl
  | cons kv rest ih =>
    obtain ⟨a, b⟩ := kv
    by_cases hak : a = k
    · rw [show mapModify ((a, b) :: rest) k g = (a, g b) :: rest from by
        simp [mapModify, hak]]
      simp
    · rw [show mapModify ((a, b) :: rest) k g = (a, b) :: mapModify rest k g from by
        simp [mapModify, hak]]
      simp [ih]

theorem mem_of_mapGet_eq_some {m : List (α × β)} {k : α} {v : β}
    (h : mapGet m k = some v) : (k, v) ∈ m := by
  unfold mapGet at h
  rcases Option.map_eq_some'.mp h with ⟨kv, hfind, hv⟩
  have hk : kv.1 = k := by simpa using List.find?_some hfind
  have hmem := List.mem_of_find?_eq_some hfind
  have : (k, v) = kv := by
    obtain ⟨a, b⟩ := kv
    simp only at hk hv
    rw [hk, hv]
  rw [this]
  exact hmem

theorem mapGet_eq_some_of_mem {m : List (α × β)} {k : α} {v : β}
    (hn : (m.map Prod.fst).Nodup) (h : (k, v) ∈ m) : mapGet m k = some v := by
  induction m with
  | nil => cases h
  | cons kv rest ih =>
    obtain ⟨a, b⟩ := kv
    rw [List.map_cons, List.nodup_cons] at hn
    rcases List.mem_cons.mp h with h | h
    · have hk : k = a := congrArg Prod.fst h
      have hv : v = b := congrArg Prod.snd h
      rw [mapGet_cons, if_pos hk.symm, ← hv]
    · by_cases hak : a = k
      · exfalso
        apply hn.1
        rw [hak]
        exact List.mem_map.mpr ⟨(k, v), h, rfl⟩
      · rw [mapGet_cons, if_neg hak]
        exact ih hn.2 h

end MapLemmas

/-! ## Characterization of `groupFilesBySubfolder` -/

theorem mapGet_initGroups (ss : List SubfolderConfig)
    (m : List (SubfolderConfig × List IndexedFile)) (s : SubfolderConfig) :
    mapGet (initGroups ss m) s = if s ∈ ss then some [] else mapGet m s := by
  induction ss generalizing m with
  | nil => simp [initGroups]
  | cons s0 ss ih =>
    rw [show initGroups (s0 :: ss) m = initGroups ss (mapSet m s0 []) from rfl, ih]
    by_cases h1 : s ∈ ss
    · rw [if_pos h1, if_pos (List.mem_cons.mpr (Or.inr h1))]
    · rw [if_neg h1, mapGet_mapSet]
      by_cases h2 : s0 = s
      · rw [if_pos h2, if_pos (List.mem_cons.mpr (Or.inl h2.symm))]
      · rw [if_neg h2, if_neg (fun hm => by
          rcases List.mem_cons.mp hm with hm | hm
          · exact h2 hm.symm
          · exact h1 hm)]

theorem nodup_keys_initGroups (ss : List SubfolderConfig)
    (m : List (SubfolderConfig × List IndexedFile))
    (h : (m.map Prod.fst).Nodup) : ((initGroups ss m).map Prod.fst).Nodup := by
  induction ss generalizing m with
  | nil => exact h
  | cons s0 ss ih =>
    exact ih (mapSet m s0 []) (nodup_keys_mapSet m s0 [] h)

theorem not_contains_iff (l : List String) (a : String) :
    ((!(l.contains a)) = true) ↔ a ∉ l := by simp

theorem assignFiles_cons_none (sorted : List SubfolderConfig) (f : IndexedFile)
    (fs : List IndexedFile) (m : List (SubfolderConfig × List IndexedFile))
    (a : List String) (hc : chooseSubfolder sorted f.path = none) :
    assignFiles sorted (f :: fs) (m, a) = assignFiles sorted fs (m, a) := by
  have hrfl : assignFiles sorted (f :: fs) (m, a) =
      (match chooseSubfolder sorted f.path with
        | some s =>
          assignFiles sorted fs (mapModify m s (fun b => b ++ [f]), a ++ [f.path])
        | none => assignFiles sorted fs (m, a)) := rfl
  rw [hrfl, hc]

theorem assignFiles_cons_some (sorted : List SubfolderConfig) (f : IndexedFile)
    (fs : List IndexedFile) (m : List (SubfolderConfig × List IndexedFile))
    (a : List String) (s' : SubfolderConfig)
    (hc : chooseSubfolder sorted f.path = some s') :
    assignFiles sorted (f :: fs) (m, a) =
      assignFiles sorted fs (mapModify m s' (fun b => b ++ [f]), a ++ [f.path]) := by
  have hrfl : assignFiles sorted (f :: fs) (m, a) =
      (match chooseSubfolder sorted f.path with
        | some s =>
          assignFiles sorted fs (mapModify m s (fun b => b ++ [f]), a ++ [f.path])
        | none => assignFiles sorted fs (m, a)) := rfl
  rw [hrfl, hc]

theorem assignFiles_fst (sorted : List SubfolderConfig) (fs : List IndexedFile) :
    ∀ (m : List (SubfolderConfig × List IndexedFile)) (a : List String)
      (s : SubfolderConfig),
      mapGet ((assignFiles sorted fs (m, a)).1) s =
        (mapGet m s).map (fun b =>
          b ++ fs.filter (fun f => chooseSubfolder sorted f.path == some s)) := by
  induction fs with
  | nil =>
    intro m a s
    rw [show assignFiles sorted [] (m, a) = (m, a) from rfl]
    simp
  | cons f fs ih =>
    intro m a s
    cases hc : chooseSubfolder sorted f.path with
    | none =>
      rw [assignFiles_cons_none sorted f fs m a hc]
      rw [ih]
      rw [List.filter_cons_of_neg (by simp [hc])]
    | some s' =>
      rw [assignFiles_cons_some sorted f fs m a s' hc]
      rw [ih, mapGet_mapModify]
      by_cases hss : s' = s
      · rw [if_pos hss, Option.map_map]
        rw [List.filter_cons_of_pos (by simp [hc, hss])]
        apply congrArg (fun g => Option.map g (mapGet m s))
        funext b
        simp
      · rw [if_neg hss]
        rw [List.filter_cons_of_neg (by simp [hc, hss])]

theorem assignFiles_snd (sorted : List SubfolderConfig) (fs : List IndexedFile) :
    ∀ (m : List (SubfolderConfig × List IndexedFile)) (a : List String),
      (assignFiles sorted fs (m, a)).2 =
        a ++ (fs.filter (fun f => (chooseSubfolder sorted f.path).isSome)).map
          (fun f => f.path) := by
  induction fs with
  | nil =>
    intro m a
    rw [show assignFiles sorted [] (m, a) = (m, a) from rfl]
    simp
  | cons f fs ih =>
    intro m a
    cases hc : chooseSubfolder sorted f.path with
    | none =>
      rw [assignFiles_cons_none sorted f fs m a hc]
      rw [ih]
      rw [List.filter_cons_of_neg (by simp [hc])]
    | some s' =>
      rw [assignFiles_cons_some sorted f fs m a s' hc]
      rw [ih]
      rw [List.filter_cons_of_pos (by simp [hc])]
      simp

theorem assignFiles_keys (sorted : List SubfolderConfig) (fs : List IndexedFile) :
    ∀ (m : List (SubfolderConfig × List IndexedFile)) (a : List String),
      ((assignFiles sorted fs (m, a)).1).map Prod.fst = m.map Prod.fst := by
  induction fs with
  | nil =>
    intro m a
    rw [show assignFiles sorted [] (m, a) = (m, a) from rfl]
  | cons f fs ih =>
    intro m a
    cases hc : chooseSubfolder sorted f.path with
    | none =>
      rw [assignFiles_cons_none sorted f fs m a hc]
      exact ih m a
    | some s' =>
      rw [assignFiles_cons_some sorted f fs m a s' hc]
      rw [ih, keys_mapModify]

theorem groupFilesBySubfolder_fst_get (files : List IndexedFile)
    (subfolders : List SubfolderConfig) (s : SubfolderConfig) :
    mapGet (groupFilesBySubfolder files subfolders).1 s =
      if s ∈ subfolders then
        some (files.filter (fun f =>
          chooseSubfolder (sortedSubfolders subfolders) f.path == some s))
      else none := by
  show mapGet (assignFiles (sortedSubfolders subfolders) files
    (initGroups subfolders [], [])).1 s = _
  rw [assignFiles_fst, mapGet_initGroups]
  by_cases h : s ∈ subfolders
  · rw [if_pos h, if_pos h, Option.map_some']
    rw [List.nil_append]
  · rw [if_neg h, if_neg h, mapGet_nil, Option.map_none']

theorem groupFilesBySubfolder_keys_nodup (files : List IndexedFile)
    (subfolders : List SubfolderConfig) :
    ((groupFilesBySubfolder files subfolders).1.map Prod.fst).Nodup := by
  show ((assignFiles (sortedSubfolders subfolders) files
    (initGroups subfolders [], [])).1.map Prod.fst).Nodup
  rw [assignFiles_keys]
  exact nodup_keys_initGroups subfolders [] (by simp)

theorem groupFilesBySubfolder_snd_mem (files : List IndexedFile)
    (subfolders : List SubfolderConfig) (f : IndexedFile) :
    f ∈ (groupFilesBySubfolder files subfolders).2 ↔
      f ∈ files ∧ chooseSubfolder (sortedSubfolders subfolders) f.path = none := by
  show f ∈ files.filter (fun g => !((assignFiles (sortedSubfolders subfolders) files
    (initGroups subfolders [], [])).2.contains g.path)) ↔ _
  rw [List.mem_filter, assignFiles_snd, List.nil_append]
  constructor
  · rintro ⟨hf, hna⟩
    rw [not_contains_iff] at hna
    refine ⟨hf, ?_⟩
    rw [Option.eq_none_iff_forall_not_mem]
    intro s hs
    apply hna
    exact List.mem_map.mpr ⟨f, List.mem_filter.mpr
      ⟨hf, by rw [Option.mem_def] at hs; simp [hs]⟩, rfl⟩
  · rintro ⟨hf, hnone⟩
    refine ⟨hf, ?_⟩
    rw [not_contains_iff]
    intro hmem
    rcases List.mem_map.mp hmem with ⟨g, hg, hgp⟩
    rcases List.mem_filter.mp hg with ⟨_, hgsome⟩
    have hsame : chooseSubfolder (sortedSubfolders subfolders) g.path =
        chooseSubfolder (sortedSubfolders subfolders) f.path :=
      congrArg (chooseSubfolder (sortedSubfolders subfolders)) hgp
    rw [hsame, hnone] at hgsome
    simp at hgsome

theorem groupFilesBySubfolder_bucket_char {files : List IndexedFile}
    {subfolders : List SubfolderConfig}
    {kv : SubfolderConfig × List IndexedFile}
    (hkv : kv ∈ (groupFilesBySubfolder files subfolders).1) :
    kv.1 ∈ subfolders ∧ kv.2 = files.filter (fun f =>
      chooseSubfolder (sortedSubfolders subfolders) f.path == some kv.1) := by
  have hget := mapGet_eq_some_of_mem
    (groupFilesBySubfolder_keys_nodup files subfolders)
    (show (kv.1, kv.2) ∈ _ from by simpa using hkv)
  rw [groupFilesBySubfolder_fst_get] at hget
  by_cases h : kv.1 ∈ subfolders
  · rw [if_pos h] at hget
    exact ⟨h, (Option.some.injEq .. ▸ hget).symm⟩
  · rw [if_neg h] at hget
    cases hget

theorem groupFilesBySubfolder_bucket_exists {files : List IndexedFile}
    {subfolders : List SubfolderConfig} {s : SubfolderConfig}
    (hs : s ∈ subfolders) :
    (s, files.filter (fun f =>
        chooseSubfolder (sortedSubfolders subfolders) f.path == some s)) ∈
      (groupFilesBySubfolder files subfolders).1 := by
  apply mem_of_mapGet_eq_some
  rw [groupFilesBySubfolder_fst_get, if_pos hs]

theorem groupFilesBySubfolder_mem_bucket_paths {files : List IndexedFile}
    {subfolders : List SubfolderConfig}
    {kv : SubfolderConfig × List IndexedFile} {p : String}
    (hkv : kv ∈ (groupFilesBySubfolder files subfolders).1)
    (hp : p ∈ kv.2.map (fun g => g.path)) :
    p ∈ files.map (fun g => g.path) ∧
      chooseSubfolder (sortedSubfolders subfolders) p = some kv.1 := by
  obtain ⟨hmem, heq⟩ := groupFilesBySubfolder_bucket_char hkv
  rw [heq] at hp
  rcases List.mem_map.mp hp with ⟨g, hg, hgp⟩
  rcases List.mem_filter.mp hg with ⟨hgf, hgc⟩
  have hgc2 : chooseSubfolder (sortedSubfolders subfolders) g.path = some kv.1 := by
    simpa using hgc
  exact ⟨List.mem_map.mpr ⟨g, hgf, hgp⟩, hgp ▸ hgc2⟩

theorem sortedSubfolders_pairwise (subfolders : List SubfolderConfig) :
    (sortedSubfolders subfolders).Pairwise byPathLenDesc :=
  List.sorted_insertionSort byPathLenDesc subfolders

theorem mem_sortedSubfolders {subfolders : List SubfolderConfig}
    {s : SubfolderConfig} : s ∈ sortedSubfolders subfolders ↔ s ∈ subfolders :=
  (List.perm_insertionSort byPathLenDesc subfolders).mem_iff

/-- The first matching subfolder in a list sorted by descending path
length is at least as long as any matching member. -/
theorem choose_length_ge (sorted : List SubfolderConfig)
    (hs : sorted.Pairwise byPathLenDesc) {s2 : SubfolderConfig} {p : String}
    (hmem : s2 ∈ sorted) (hmatch : belongsToSubfolder p s2.path = true) :
    ∃ m, chooseSubfolder sorted p = some m ∧
      s2.path.length ≤ m.path.length ∧ belongsToSubfolder p m.path = true := by
  induction sorted with
  | nil => cases hmem
  | cons h t ih =>
    rw [List.pairwise_cons] at hs
    by_cases hh : belongsToSubfolder p h.path = true
    · refine ⟨h, ?_, ?_, hh⟩
      · show List.find? (fun s => belongsToSubfolder p s.path) (h :: t) = some h
        exact @List.find?_cons_of_pos _ (fun s => belongsToSubfolder p s.path) h t hh
      · rcases List.mem_cons.mp hmem with he | hmem2
        · rw [he]
        · exact hs.1 s2 hmem2
    · have hmem2 : s2 ∈ t := by
        rcases List.mem_cons.mp hmem with he | hmem2
        · exact absurd (he ▸ hmatch) hh
        · exact hmem2
      obtain ⟨m, hcm, hlen, hbm⟩ := ih hs.2 hmem2
      refine ⟨m, ?_, hlen, hbm⟩
      show List.find? (fun s => belongsToSubfolder p s.path) (h :: t) = some m
      rw [@List.find?_cons_of_neg _ (fun s => belongsToSubfolder p s.path) h t hh]
      exact hcm

/-! ## Claim C4: grouping is a partition -/

/-- C4: every input file's path occurs in a bucket or in `ungrouped`
(no loss), the ungrouped paths meet no bucket and distinct buckets are
path-disjoint (no overlap), and both sides contain only input paths. -/
theorem groupFilesBySubfolder_partition (files : List IndexedFile)
    (subfolders : List SubfolderConfig) :
    (∀ f ∈ files,
      (∃ kv ∈ (groupFilesBySubfolder files subfolders).1,
        f.path ∈ kv.2.map (fun g => g.path)) ∨
        f.path ∈ (groupFilesBySubfolder files subfolders).2.map (fun g => g.path)) ∧
    (∀ p ∈ (groupFilesBySubfolder files subfolders).2.map (fun g => g.path),
      ∀ kv ∈ (groupFilesBySubfolder files subfolders).1,
        p ∉ kv.2.map (fun g => g.path)) ∧
    ((groupFilesBySubfolder files subfolders).1.Pairwise
      (fun kv kv' => ∀ p, p ∈ kv.2.map (fun g => g.path) →
        p ∉ kv'.2.map (fun g => g.path))) ∧
    (∀ kv ∈ (groupFilesBySubfolder files subfolders).1,
      ∀ p ∈ kv.2.map (fun g => g.path), p ∈ files.map (fun g => g.path)) ∧
    (∀ p ∈ (groupFilesBySubfolder files subfolders).2.map (fun g => g.path),
      p ∈ files.map (fun g => g.path)) := by
  refine ⟨?_, ?_, ?_, ?_, ?_⟩
  · intro f hf
    cases hc : chooseSubfolder (sortedSubfolders subfolders) f.path with
    | none =>
      exact Or.inr (List.mem_map.mpr
        ⟨f, (groupFilesBySubfolder_snd_mem files subfolders f).mpr ⟨hf, hc⟩, rfl⟩)
    | some s =>
      have hss : s ∈ subfolders :=
        mem_sortedSubfolders.mp (List.mem_of_find?_eq_some hc)
      refine Or.inl ⟨(s, files.filter (fun g =>
        chooseSubfolder (sortedSubfolders subfolders) g.path == some s)),
        groupFilesBySubfolder_bucket_exists hss, ?_⟩
      exact List.mem_map.mpr ⟨f, List.mem_filter.mpr ⟨hf, by simp [hc]⟩, rfl⟩
  · intro p hp kv hkv hpin
    rcases List.mem_map.mp hp with ⟨g, hg, hgp⟩
    have hnone := ((groupFilesBySubfolder_snd_mem files subfolders g).mp hg).2
    have hchoice :=
      (groupFilesBySubfolder_mem_bucket_paths hkv hpin).2
    rw [← hgp, hnone] at hchoice
    cases hchoice
  · have hkeys := groupFilesBySubfolder_keys_nodup files subfolders
    rw [List.Nodup, List.pairwise_map] at hkeys
    refine List.Pairwise.imp_of_mem ?_ hkeys
    intro kv kv' hkv hkv' hne p hp hp'
    have h1 := (groupFilesBySubfolder_mem_bucket_paths hkv hp).2
    have h2 := (groupFilesBySubfolder_mem_bucket_paths hkv' hp').2
    rw [h1] at h2
    exact hne (Option.some.injEq .. ▸ h2)
  · intro kv hkv p hp
    exact (groupFilesBySubfolder_mem_bucket_paths hkv hp).1
  · intro p hp
    rcases List.mem_map.mp hp with ⟨g, hg, hgp⟩
    exact List.mem_map.mpr
      ⟨g, ((groupFilesBySubfolder_snd_mem files subfolders g).mp hg).1, hgp⟩

/-! ## Claim C5: longest (most specific) subfolder path wins -/

/-- C5: when the configuration contains a subfolder and a proper
prefix-directory ancestor of it, a file lying under the longer path is
never assigned to the shorter ancestor, lands in a bucket whose path
is at least as long as the longer of the pair and matches the file,
and — when the pair are the only matching subfolders — lands in the
longer one. -/
theorem groupFilesBySubfolder_most_specific (files : List IndexedFile)
    (subfolders : List SubfolderConfig) (s1 s2 : SubfolderConfig) (rest : String)
    (f : IndexedFile) (hf : f ∈ files) (hs1 : s1 ∈ subfolders)
    (hs2 : s2 ∈ subfolders) (hpre : s2.path = s1.path ++ "/" ++ rest)
    (hb : belongsToSubfolder f.path s2.path = true) :
    (∀ kv ∈ (groupFilesBySubfolder files subfolders).1,
      kv.1 = s1 → f.path ∉ kv.2.map (fun g => g.path)) ∧
    (∃ kv ∈ (groupFilesBySubfolder files subfolders).1,
      f ∈ kv.2 ∧ s2.path.length ≤ kv.1.path.length ∧
        belongsToSubfolder f.path kv.1.path = true) ∧
    ((∀ s' ∈ subfolders, belongsToSubfolder f.path s'.path = true →
        s' = s1 ∨ s' = s2) →
      ∃ kv ∈ (groupFilesBySubfolder files subfolders).1, kv.1 = s2 ∧ f ∈ kv.2) := by
  have hlen : s1.path.length < s2.path.length := by
    rw [hpre, String.length_append, String.length_append]
    have h1 : ("/" : String).length = 1 := rfl
    omega
  obtain ⟨m, hcm, hlen2, hbm⟩ := choose_length_ge (sortedSubfolders subfolders)
    (sortedSubfolders_pairwise subfolders) (mem_sortedSubfolders.mpr hs2) hb
  have hmns1 : m ≠ s1 := by
    intro he
    rw [he] at hlen2
    omega
  refine ⟨?_, ?_, ?_⟩
  · intro kv hkv hk1 hp
    have hchoice := (groupFilesBySubfolder_mem_bucket_paths hkv hp).2
    rw [hcm, hk1] at hchoice
    exact hmns1 (Option.some.injEq .. ▸ hchoice)
  · have hmm : m ∈ subfolders :=
      mem_sortedSubfolders.mp (List.mem_of_find?_eq_some hcm)
    refine ⟨(m, files.filter (fun g =>
      chooseSubfolder (sortedSubfolders subfolders) g.path == some m)),
      groupFilesBySubfolder_bucket_exists hmm, ?_, hlen2, hbm⟩
    exact List.mem_filter.mpr ⟨hf, by simp [hcm]⟩
  · intro honly
    have hmm : m ∈ subfolders :=
      mem_sortedSubfolders.mp (List.mem_of_find?_eq_some hcm)
    have hm2 : m = s2 := by
      rcases honly m hmm hbm with he | he
      · exact absurd he hmns1
      · exact he
    refine ⟨(s2, files.filter (fun g =>
      chooseSubfolder (sortedSubfolders subfolders) g.path == some s2)),
      groupFilesBySubfolder_bucket_exists hs2, rfl, ?_⟩
    exact List.mem_filter.mpr ⟨hf, by simp [hm2 ▸ hcm]⟩

/-- Witness for C4 at a concrete input. -/
theorem groupFilesBySubfolder_partition_witness :
    (∃ kv ∈ (groupFilesBySubfolder [fileX] [subSrc, subSrcApi]).1,
      fileX.path ∈ kv.2.map (fun g => g.path)) ∨
      fileX.path ∈ (groupFilesBySubfolder [fileX] [subSrc, subSrcApi]).2.map
        (fun g => g.path) :=
  (groupFilesBySubfolder_partition [fileX] [subSrc, subSrcApi]).1 fileX (by decide)

/-- Witness for C5 at a concrete input: `src/api/x.ts` lands in the
bucket of `src/api`. -/
theorem groupFilesBySubfolder_most_specific_witness :
    ∃ kv ∈ (groupFilesBySubfolder [fileX] [subSrc, subSrcApi]).1,
      kv.1 = subSrcApi ∧ fileX ∈ kv.2 :=
  (groupFilesBySubfolder_most_specific [fileX] [subSrc, subSrcApi] subSrc subSrcApi
    "api" fileX (by decide) (by decide) (by decide) (by decide) (by decide)).2.2
    (by decide)

/-! ## Claim C9: depth 0 returns nothing -/

/-- C9: for every seed-file list, known-files list and root directory
(absorbed in `env`), `resolveImportsForFiles` with depth 0 returns the
empty list. -/
theorem resolveImportsForFiles_depth_zero (env : ScanEnv)
    (files allFiles : List IndexedFile) :
    resolveImportsForFiles env files allFiles 0 = [] := rfl

/-! ## Claim C7: the token estimate heuristic -/

/-- C7: `estimateTokens` returns 0 on the empty string for either
flag, is monotone non-decreasing in input length for a fixed flag, and
is `ceil(length * ratio)` with the code ratio strictly greater than
the prose ratio. -/
theorem estimateTokens_spec :
    (∀ isCode, estimateTokens "" isCode = 0) ∧
    (∀ s t isCode, s.length ≤ t.length →
      estimateTokens s isCode ≤ estimateTokens t isCode) ∧
    (∀ s isCode, estimateTokens s isCode =
      ⌈(s.length : ℚ) * (if isCode then TOKENS_PER_CHAR.code else TOKENS_PER_CHAR.prose)⌉) ∧
    TOKENS_PER_CHAR.prose < TOKENS_PER_CHAR.code := by
  refine ⟨?_, ?_, fun s isCode => rfl, ?_⟩
  · intro isCode
    have h : ("" : String).length = 0 := rfl
    simp [estimateTokens, h]
  · intro s t isCode h
    unfold estimateTokens
    have hratio : (0 : ℚ) ≤ (if isCode then TOKENS_PER_CHAR.code else TOKENS_PER_CHAR.prose) := by
      cases isCode <;> norm_num [TOKENS_PER_CHAR]
    exact Int.ceil_le_ceil (mul_le_mul_of_nonneg_right (by exact_mod_cast h) hratio)
  · norm_num [TOKENS_PER_CHAR]

/-- Witness for C7 at concrete inputs. -/
theorem estimateTokens_spec_witness :
    ("ab".length ≤ "abc".length) ∧ estimateTokens "ab" true ≤ estimateTokens "abc" true :=
  ⟨by decide, estimateTokens_spec.2.1 "ab" "abc" true (by decide)⟩

/-! ## Claim C1: dedup across the whole call (refuted) -/

/-- Counterexample to C1 as stated: on the cyclic graph, with depth 2,
the call seeded with `a.ts` returns `a.ts` itself, because the
processed set is created anew at every recursion level rather than
spanning the whole call. -/
theorem resolveImportsForFiles_cycle_counterexample :
    resolveImportsForFiles envCycle [fileA] [fileA, fileB] 2 = [fileB, fileA] ∧
    ¬ ((∀ f ∈ resolveImportsForFiles envCycle [fileA] [fileA, fileB] 2,
          f.path ∉ [fileA].map (fun g => g.path)) ∧
        ((resolveImportsForFiles envCycle [fileA] [fileA, fileB] 2).map
          (fun f => f.path)).Nodup) := by
  constructor
  · decide
  · decide

/-! ## Level invariants of the import resolver -/

theorem normChar_normChar (c : Char) : normChar (normChar c) = normChar c := by
  by_cases h : c = '\\' <;> simp [normChar, h]

theorem normalizePath_idem (p : String) :
    normalizePath (normalizePath p) = normalizePath p := by
  unfold normalizePath
  have h : (String.mk (p.toList.map normChar)).toList = p.toList.map normChar := rfl
  rw [h, List.map_map]
  have h2 : normChar ∘ normChar = normChar := funext normChar_normChar
  rw [h2]

theorem ResolveInv.skip {cur : List String} {st : List String × List IndexedFile}
    (h : ResolveInv cur st) (nr : String) :
    ResolveInv cur (st.1 ++ [nr], st.2) :=
  ⟨fun f hf => List.mem_append_left _ (h.1 f hf), h.2.1, h.2.2⟩

theorem ResolveInv.push {cur : List String} {st : List String × List IndexedFile}
    (h : ResolveInv cur st) {nr : String} (hnc : nr ∉ cur) (hns : nr ∉ st.1)
    {g : IndexedFile} (hg : normalizePath g.path = nr) :
    ResolveInv cur (st.1 ++ [nr], st.2 ++ [g]) := by
  refine ⟨?_, ?_, ?_⟩
  · intro f hf
    rcases List.mem_append.mp hf with hf | hf
    · exact List.mem_append_left _ (h.1 f hf)
    · have : f = g := by simpa using hf
      subst this
      rw [hg]
      exact List.mem_append_right _ (by simp)
  · rw [List.map_append]
    have hnot : nr ∉ st.2.map (fun f => normalizePath f.path) := by
      intro hmem
      rcases List.mem_map.mp hmem with ⟨f, hf, hfe⟩
      exact hns (hfe ▸ h.1 f hf)
    simp [List.nodup_append, h.2.1, hg, hnot]
  · intro f hf
    rcases List.mem_append.mp hf with hf | hf
    · exact h.2.2 f hf
    · have : f = g := by simpa using hf
      subst this
      rw [hg]
      exact hnc

theorem resolveOneImport_inv (env : ScanEnv) (allFiles : List IndexedFile)
    (afp cur : List String) (fp imp : String)
    (st : List String × List IndexedFile) (h : ResolveInv cur st) :
    ResolveInv cur (resolveOneImport env allFiles afp cur fp st imp) := by
  unfold resolveOneImport
  cases hr : env.resolveImportPath imp fp with
  | none => exact h
  | some resolved =>
    simp only
    by_cases hg : (cur.contains (normalizePath resolved) ||
        st.1.contains (normalizePath resolved)) = true
    · rw [if_pos hg]; exact h
    · rw [if_neg hg]
      have hnc : normalizePath resolved ∉ cur := by
        intro hmem
        exact hg (by simp [hmem])
      have hns : normalizePath resolved ∉ st.1 := by
        intro hmem
        exact hg (by simp [hmem])
      cases hf : allFiles.find? (fun f => normalizePath f.path == normalizePath resolved) with
      | some g =>
        have hgn : normalizePath g.path = normalizePath resolved := by
          have := List.find?_some hf
          simpa using this
        exact h.push hnc hns hgn
      | none =>
        by_cases ha : afp.contains (normalizePath resolved) = true
        · rw [if_pos ha]
          cases env.readFile resolved with
          | some content =>
            exact h.push hnc hns (normalizePath_idem resolved)
          | none => exact h.skip _
        · rw [if_neg ha]
          exact h.skip _

theorem processImportList_inv (env : ScanEnv) (allFiles : List IndexedFile)
    (afp cur : List String) (fp : String) (imps : List String)
    (st : List String × List IndexedFile) (h : ResolveInv cur st) :
    ResolveInv cur (processImportList env allFiles afp cur fp imps st) := by
  induction imps generalizing st with
  | nil => exact h
  | cons imp rest ih =>
    exact ih _ (resolveOneImport_inv env allFiles afp cur fp imp st h)

theorem processFiles_inv (env : ScanEnv) (allFiles : List IndexedFile)
    (afp cur : List String) (fs : List IndexedFile)
    (st : List String × List IndexedFile) (h : ResolveInv cur st) :
    ResolveInv cur (processFiles env allFiles afp cur fs st) := by
  induction fs generalizing st with
  | nil => exact h
  | cons f rest ih =>
    exact ih _ (processImportList_inv env allFiles afp cur f.path
      (env.extractImports f.content) st h)

/-- Unfolding equation of `resolveImportsForFiles` at a positive depth. -/
theorem resolveImportsForFiles_succ (env : ScanEnv)
    (files allFiles : List IndexedFile) (d : Nat) :
    resolveImportsForFiles env files allFiles (d + 1) =
      (if 0 < ((processFiles env allFiles
            (allFiles.map fun f => normalizePath f.path)
            (files.map fun f => normalizePath f.path) files ([], [])).2).length ∧
          1 < d + 1 then
        (processFiles env allFiles (allFiles.map fun f => normalizePath f.path)
            (files.map fun f => normalizePath f.path) files ([], [])).2 ++
          resolveImportsForFiles env
            (processFiles env allFiles (allFiles.map fun f => normalizePath f.path)
              (files.map fun f => normalizePath f.path) files ([], [])).2
            (allFiles ++
              (processFiles env allFiles (allFiles.map fun f => normalizePath f.path)
                (files.map fun f => normalizePath f.path) files ([], [])).2) d
      else
        (processFiles env allFiles (allFiles.map fun f => normalizePath f.path)
          (files.map fun f => normalizePath f.path) files ([], [])).2) := rfl

/-- C1 amended: at depth 1 — a single expansion level — the returned
list contains no file whose path is among the seed files' paths and
contains no path twice. -/
theorem resolveImportsForFiles_depth_one (env : ScanEnv)
    (files allFiles : List IndexedFile) :
    (∀ f ∈ resolveImportsForFiles env files allFiles 1,
      f.path ∉ files.map (fun g => g.path)) ∧
    ((resolveImportsForFiles env files allFiles 1).map (fun f => f.path)).Nodup := by
  have h0 : ResolveInv (files.map fun f => normalizePath f.path)
      (([], []) : List String × List IndexedFile) := ⟨by simp, by simp, by simp⟩
  have hinv := processFiles_inv env allFiles (allFiles.map fun f => normalizePath f.path)
    (files.map fun f => normalizePath f.path) files ([], []) h0
  rw [resolveImportsForFiles_succ]
  rw [if_neg (fun hc => absurd hc.2 (by norm_num))]
  constructor
  · intro f hf hmem
    rcases List.mem_map.mp hmem with ⟨g, hg, hgp⟩
    apply hinv.2.2 f hf
    exact List.mem_map.mpr ⟨g, hg, by rw [hgp]⟩
  · have h2 := hinv.2.1
    have hmm : ((processFiles env allFiles (allFiles.map fun f => normalizePath f.path)
        (files.map fun f => normalizePath f.path) files ([], [])).2.map
          (fun f => f.path)).map normalizePath =
        (processFiles env allFiles (allFiles.map fun f => normalizePath f.path)
          (files.map fun f => normalizePath f.path) files ([], [])).2.map
            (fun f => normalizePath f.path) := by
      rw [List.map_map]; rfl
    exact List.Nodup.of_map normalizePath (hmm ▸ h2)

/-- Witness for the amended C1 at a concrete input. -/
theorem resolveImportsForFiles_depth_one_witness :
    fileB.path ∉ [fileA].map (fun g => g.path) :=
  (resolveImportsForFiles_depth_one envCycle [fileA] [fileA, fileB]).1 fileB (by decide)

/-! ## Claim C10: everything returned comes from the known-files list -/

theorem resolveOneImport_mem_known (env : ScanEnv) (allFiles : List IndexedFile)
    (cur : List String) (fp imp : String) (st : List String × List IndexedFile)
    (hsub : ∀ x ∈ st.2, x ∈ allFiles) :
    ∀ x ∈ (resolveOneImport env allFiles (allFiles.map fun f => normalizePath f.path)
        cur fp st imp).2, x ∈ allFiles := by
  unfold resolveOneImport
  cases hr : env.resolveImportPath imp fp with
  | none => exact hsub
  | some resolved =>
    simp only
    by_cases hg : (cur.contains (normalizePath resolved) ||
        st.1.contains (normalizePath resolved)) = true
    · rw [if_pos hg]; exact hsub
    · rw [if_neg hg]
      cases hf : allFiles.find? (fun f => normalizePath f.path == normalizePath resolved) with
      | some g =>
        intro x hx
        rcases List.mem_append.mp hx with hx | hx
        · exact hsub x hx
        · have : x = g := by simpa using hx
          subst this
          exact List.mem_of_find?_eq_some hf
      | none =>
        by_cases ha : (allFiles.map fun f => normalizePath f.path).contains
            (normalizePath resolved) = true
        · exfalso
          have hmem : normalizePath resolved ∈ allFiles.map fun f => normalizePath f.path := by
            simpa using ha
          rcases List.mem_map.mp hmem with ⟨g, hgmem, hge⟩
          have := List.find?_eq_none.mp hf g hgmem
          simp [hge] at this
        · rw [if_neg ha]
          exact hsub

theorem processImportList_mem_known (env : ScanEnv) (allFiles : List IndexedFile)
    (cur : List String) (fp : String) (imps : List String)
    (st : List String × List IndexedFile) (hsub : ∀ x ∈ st.2, x ∈ allFiles) :
    ∀ x ∈ (processImportList env allFiles (allFiles.map fun f => normalizePath f.path)
        cur fp imps st).2, x ∈ allFiles := by
  induction imps generalizing st with
  | nil => exact hsub
  | cons imp rest ih =>
    exact ih _ (resolveOneImport_mem_known env allFiles cur fp imp st hsub)

theorem processFiles_mem_known (env : ScanEnv) (allFiles : List IndexedFile)
    (cur : List String) (fs : List IndexedFile)
    (st : List String × List IndexedFile) (hsub : ∀ x ∈ st.2, x ∈ allFiles) :
    ∀ x ∈ (processFiles env allFiles (allFiles.map fun f => normalizePath f.path)
        cur fs st).2, x ∈ allFiles := by
  induction fs generalizing st with
  | nil => exact hsub
  | cons f rest ih =>
    exact ih _ (processImportList_mem_known env allFiles cur f.path
      (env.extractImports f.content) st hsub)

/-- C10: every file returned by `resolveImportsForFiles` is an element
(same path and content) of the known-files argument of the top-level
call — the unreachable fresh-read branch is the only code that could
introduce anything else. -/
theorem resolveImportsForFiles_subset_known (env : ScanEnv) :
    ∀ (depth : Nat) (files allFiles : List IndexedFile) (f : IndexedFile),
      f ∈ resolveImportsForFiles env files allFiles depth → f ∈ allFiles := by
  intro depth
  induction depth with
  | zero =>
    intro files allFiles f hf
    rw [resolveImportsForFiles_depth_zero] at hf
    simp at hf
  | succ d ih =>
    intro files allFiles f hf
    rw [resolveImportsForFiles_succ] at hf
    have hI := processFiles_mem_known env allFiles
      (files.map fun f => normalizePath f.path) files ([], []) (by simp)
    by_cases hc : 0 < ((processFiles env allFiles
        (allFiles.map fun f => normalizePath f.path)
        (files.map fun f => normalizePath f.path) files ([], [])).2).length ∧
        1 < d + 1
    · rw [if_pos hc] at hf
      rcases List.mem_append.mp hf with hf | hf
      · exact hI f hf
      · rcases List.mem_append.mp (ih _ _ f hf) with hf2 | hf2
        · exact hf2
        · exact hI f hf2
    · rw [if_neg hc] at hf
      exact hI f hf

/-- Witness for C10 at a concrete input. -/
theorem resolveImportsForFiles_subset_known_witness :
    fileB ∈ [fileA, fileB] :=
  resolveImportsForFiles_subset_known envCycle 2 [fileA] [fileA, fileB] fileB (by decide)

/-! ## Claim C2: the fresh-read branch is unreachable (code bug) -/

/-- C2 evaluated at its failing input: the import of `a.ts` resolves
to `b.ts`, which exists and is readable on disk (`envFresh.readFile`)
and is not among the known files, yet the result is empty — the guard
of the fresh-read branch re-tests membership in the known-files path
set, the very condition that just failed, so the branch can never
run. -/
theorem resolveImportsForFiles_no_fresh_read :
    envFresh.resolveImportPath "./b" "a.ts" = some "b.ts" ∧
    envFresh.readFile "b.ts" = some "cb" ∧
    (∀ f ∈ [fileA], f.path ≠ "b.ts") ∧
    resolveImportsForFiles envFresh [fileA] [fileA] 1 = [] := by
  refine ⟨by decide, by decide, by decide, by decide⟩

/-! ## Claim C8: aggregation of estimates -/

/-- The summation loop of `aggregateEstimates`, characterized. -/
theorem foldl_aggStep (es : List TokenEstimate) :
    ∀ (t : TokenEstimate) (c : ℚ), t.estimatedCost = some c →
      es.foldl aggStep t =
        { t with
          characters := t.characters + (es.map (fun e => e.characters)).sum,
          tokens := t.tokens + (es.map (fun e => e.tokens)).sum,
          estimatedCost :=
            some (c + (es.map (fun e => e.estimatedCost.getD 0)).sum) } := by
  induction es with
  | nil =>
    intro t c hc
    obtain ⟨ch, tk, co, cw, cu, w⟩ := t
    have hc' : co = some c := hc
    subst hc'
    simp
  | cons e es ih =>
    intro t c hc
    rw [List.foldl_cons]
    have hstep : (aggStep t e).estimatedCost = some (c + e.estimatedCost.getD 0) := by
      cases he : e.estimatedCost <;> simp [aggStep, he, hc]
    rw [ih _ _ hstep]
    obtain ⟨ch, tk, co, cw, cu, w⟩ := t
    have hc' : co = some c := hc
    subst hc'
    cases he : e.estimatedCost <;>
      simp [aggStep, he, TokenEstimate.mk.injEq, List.map_cons, List.sum_cons,
        add_assoc]

/-- C8 amended: `aggregateEstimates` sums characters, tokens and cost
(missing cost contributing zero, and the cost defined even for the
empty list), takes its context window from the first estimate whose
context window is present and non-zero (JavaScript truthiness — a zero
window is skipped like an absent one), and recomputes the usage
percentage from the aggregate token total against that window;
`aggregateEstimates []` has zero characters, zero tokens, cost zero
and no context window. -/
theorem aggregateEstimates_spec (es : List TokenEstimate) :
    (aggregateEstimates es).characters = (es.map (fun e => e.characters)).sum ∧
    (aggregateEstimates es).tokens = (es.map (fun e => e.tokens)).sum ∧
    (aggregateEstimates es).estimatedCost =
      some ((es.map (fun e => e.estimatedCost.getD 0)).sum) ∧
    (aggregateEstimates es).contextWindow =
      ((es.find? (fun e => truthyNat e.contextWindow)).bind
        (fun e => e.contextWindow)) ∧
    (aggregateEstimates es).contextUsagePercent =
      (((es.find? (fun e => truthyNat e.contextWindow)).bind
        (fun e => e.contextWindow)).map
          (fun w => usagePercent (es.map (fun e => e.tokens)).sum w)) ∧
    aggregateEstimates [] = { characters := 0, tokens := 0, estimatedCost := some 0 } := by
  have hT := foldl_aggStep es
    { characters := 0, tokens := 0, estimatedCost := some 0 } 0 rfl
  cases hfind : es.find? (fun e => truthyNat e.contextWindow) with
  | none =>
    have hagg : aggregateEstimates es = es.foldl aggStep
        { characters := 0, tokens := 0, estimatedCost := some 0 } := by
      unfold aggregateEstimates
      rw [hfind]
    rw [hagg, hT]
    exact ⟨by simp, by simp, by simp, by simp [hfind], by simp [hfind], rfl⟩
  | some e =>
    have htr : truthyNat e.contextWindow = true := by
      have hh := List.find?_some hfind
      exact hh
    cases hw : e.contextWindow with
    | none => rw [hw] at htr; cases htr
    | some w =>
      have hagg : aggregateEstimates es =
          { es.foldl aggStep { characters := 0, tokens := 0, estimatedCost := some 0 } with
            contextWindow := some w,
            contextUsagePercent := some (usagePercent
              (es.foldl aggStep
                { characters := 0, tokens := 0, estimatedCost := some 0 }).tokens w),
            warning := if usagePercent
                (es.foldl aggStep
                  { characters := 0, tokens := 0, estimatedCost := some 0 }).tokens w > 80
              then some (.highUsage (usagePercent
                (es.foldl aggStep
                  { characters := 0, tokens := 0, estimatedCost := some 0 }).tokens w))
              else none } := by
        unfold aggregateEstimates
        rw [hfind]
        dsimp only
        rw [hw]
      rw [hagg, hT]
      exact ⟨by simp, by simp, by simp, by simp [hfind, hw],
        by simp [hfind, hw], rfl⟩

/-- Counterexample to C8 as stated: the first estimate that has a
context window carries `some 0`, but `aggregateEstimates` skips it
(JavaScript truthiness) and takes the window of the second estimate. -/
theorem aggregateEstimates_window_counterexample :
    ([estZeroWindow, estHundredWindow].find? (fun e => e.contextWindow.isSome)).bind
        (fun e => e.contextWindow) = some 0 ∧
    (aggregateEstimates [estZeroWindow, estHundredWindow]).contextWindow = some 100 := by
  constructor
  · decide
  · decide

/-! ## Claim C3: the critical warning is unreachable (code bug) -/

/-- C3 evaluated at its failing input: for 360000 characters of code
and model `o1-mini` (context 128000), the usage percentage is 98.4% —
beyond the 95% threshold — yet the attached warning is the high-usage
one: the `else if (pct > 95)` branch is unreachable because any
percentage above 95 already satisfies the preceding `if (pct > 80)`. -/
theorem getTokenEstimate_critical_unreachable :
    (95 : ℚ) < 984 / 10 ∧
    (getTokenEstimate longContent (some "o1-mini") true).contextUsagePercent =
      some (984 / 10) ∧
    (getTokenEstimate longContent (some "o1-mini") true).warning =
      some (.highUsage (984 / 10)) := by
  have hlen : longContent.length = 360000 := by
    show (List.replicate 360000 'a').length = 360000
    rw [List.length_replicate]
  have htok : estimateTokens longContent true = 126000 := by
    rw [show estimateTokens longContent true =
      ⌈(longContent.length : ℚ) * TOKENS_PER_CHAR.code⌉ from rfl, hlen]
    norm_num [TOKENS_PER_CHAR]
  have hfind : findPricing "o1-mini" = some ⟨3, 12, 128000⟩ := by decide
  have hpct : usagePercent 126000 128000 = 984 / 10 := by
    unfold usagePercent
    rw [round_eq]
    norm_num
  have hg : getTokenEstimate longContent (some "o1-mini") true =
      { characters := longContent.length, tokens := 126000,
        estimatedCost := some (((126000 : ℤ) : ℚ) / 1000000 * 3),
        contextWindow := some 128000,
        contextUsagePercent := some (984 / 10),
        warning := some (.highUsage (984 / 10)) } := by
    unfold getTokenEstimate
    dsimp only
    rw [hfind]
    dsimp only
    rw [htok, hpct]
    rw [if_pos (by norm_num : (984 : ℚ) / 10 > 80)]
  refine ⟨by norm_num, ?_, ?_⟩
  · rw [hg]
  · rw [hg]

/-! ## Claim C6: dry-run is a faithful, effect-free preview -/

theorem generateSubfolderDoc_correspond (env : GenEnv) (sf : SubfolderConfig)
    (files allFiles : List IndexedFile) (prompt : String) (ex : List String)
    (model : Option String) (o : LLMOracle) (llm : Option LLMOracle) :
    ∃ d e evs d',
      generateSubfolderDoc env llm sf files allFiles prompt ex model true =
        .ok ((d, e), []) ∧
      generateSubfolderDoc env (some o) sf files allFiles prompt ex model false =
        .ok ((d', e), evs) ∧
      d.map docKey = d'.map docKey ∧
      (∀ x, d = some x → x.content = dryRunContent) := by
  by_cases h : files.length = 0
  · refine ⟨none, none, [], none, ?_, ?_, rfl, fun x hx => by cases hx⟩
    · unfold generateSubfolderDoc
      rw [if_pos h]
    · unfold generateSubfolderDoc
      rw [if_pos h]
  · unfold generateSubfolderDoc
    rw [if_neg h, if_neg h]
    rw [if_pos (rfl : (true : Bool) = true), if_neg Bool.false_ne_true]
    refine ⟨_, _, _, _, rfl, rfl, rfl, ?_⟩
    intro x hx
    cases hx
    rfl

theorem generateUngroupedDocs_correspond (env : GenEnv)
    (files : List IndexedFile) (outputDir prompt : String)
    (model : Option String) (o : LLMOracle) (llm : Option LLMOracle) :
    ∃ d e evs d',
      generateUngroupedDocs env llm files outputDir prompt model true =
        .ok ((d, e), []) ∧
      generateUngroupedDocs env (some o) files outputDir prompt model false =
        .ok ((d', e), evs) ∧
      d.map docKey = d'.map docKey ∧
      (∀ x, d = some x → x.content = dryRunContent) := by
  by_cases h : files.length = 0
  · refine ⟨none, none, [], none, ?_, ?_, rfl, fun x hx => by cases hx⟩
    · unfold generateUngroupedDocs
      rw [if_pos h]
    · unfold generateUngroupedDocs
      rw [if_pos h]
  · unfold generateUngroupedDocs
    rw [if_neg h, if_neg h]
    rw [if_pos (rfl : (true : Bool) = true), if_neg Bool.false_ne_true]
    refine ⟨_, _, _, _, rfl, rfl, rfl, ?_⟩
    intro x hx
    cases hx
    rfl

theorem generateReadme_correspond (env : GenEnv) (allFiles : List IndexedFile)
    (prompt : String) (model : Option String) (o : LLMOracle)
    (llm : Option LLMOracle) :
    ∃ d e evs d',
      generateReadme env llm allFiles prompt model true = .ok ((d, e), []) ∧
      generateReadme env (some o) allFiles prompt model false = .ok ((d', e), evs) ∧
      docKey d = docKey d' ∧ d.content = dryRunContent := by
  unfold generateReadme
  rw [if_pos (rfl : (true : Bool) = true), if_neg Bool.false_ne_true]
  exact ⟨_, _, _, _, rfl, rfl, rfl, rfl⟩

/-- Unfolding equation of `processSubfolders` at a cons cell. -/
theorem processSubfolders_cons (env : GenEnv) (llm : Option LLMOracle)
    (allFiles : List IndexedFile) (prompt : String) (ex : List String)
    (model : Option String) (dryRun : Bool) (sf : SubfolderConfig)
    (files : List IndexedFile) (rest : List (SubfolderConfig × List IndexedFile))
    (acc : List GeneratedDoc × List TokenEstimate × List Event) :
    processSubfolders env llm allFiles prompt ex model dryRun ((sf, files) :: rest) acc =
      (match generateSubfolderDoc env llm sf files allFiles prompt ex model dryRun with
      | .error e => .error e
      | .ok ((doc?, est?), ev) =>
        match doc? with
        | none =>
          processSubfolders env llm allFiles prompt ex model dryRun rest
            (acc.1, acc.2.1, acc.2.2 ++ ev)
        | some doc =>
          processSubfolders env llm allFiles prompt ex model dryRun rest
            (acc.1 ++ [doc],
              (match est? with | some est => acc.2.1 ++ [est] | none => acc.2.1),
              acc.2.2 ++ ev ++
                (if dryRun then ([] : List Event)
                  else [.write doc.outputPath doc.content]))) := rfl

theorem processSubfolders_correspond (env : GenEnv)
    (allFiles : List IndexedFile) (prompt : String) (ex : List String)
    (model : Option String) (o : LLMOracle)
    (lst : List (SubfolderConfig × List IndexedFile)) :
    ∀ (dD dW : List GeneratedDoc) (eA : List TokenEstimate) (tW : List Event),
      dD.map docKey = dW.map docKey →
      (∀ x ∈ dD, x.content = dryRunContent) →
      ∃ dD' dW' eA' tW',
        processSubfolders env none allFiles prompt ex model true lst (dD, eA, []) =
          .ok (dD', eA', []) ∧
        processSubfolders env (some o) allFiles prompt ex model false lst
          (dW, eA, tW) = .ok (dW', eA', tW') ∧
        dD'.map docKey = dW'.map docKey ∧
        (∀ x ∈ dD', x.content = dryRunContent) := by
  induction lst with
  | nil =>
    intro dD dW eA tW hproj hph
    exact ⟨dD, dW, eA, tW, rfl, rfl, hproj, hph⟩
  | cons hd rest ih =>
    obtain ⟨sf, files⟩ := hd
    intro dD dW eA tW hproj hph
    obtain ⟨d, e, evs, d', hdry, hwet, hproj2, hph2⟩ :=
      generateSubfolderDoc_correspond env sf files allFiles prompt ex model o none
    rw [processSubfolders_cons, hdry]
    rw [processSubfolders_cons, hwet]
    dsimp only
    cases hd0 : d with
    | none =>
      have hd0' : d' = none := by
        rw [hd0] at hproj2
        cases hd' : d' with
        | none => rfl
        | some x' => rw [hd'] at hproj2; cases hproj2
      rw [hd0']
      dsimp only
      rw [List.append_nil]
      exact ih dD dW eA (tW ++ evs) hproj hph
    | some x =>
      obtain ⟨x', hd0'⟩ : ∃ x', d' = some x' := by
        rw [hd0] at hproj2
        cases hd' : d' with
        | none => rw [hd'] at hproj2; cases hproj2
        | some x' => exact ⟨x', rfl⟩
      have hkey : docKey x = docKey x' := by
        rw [hd0, hd0'] at hproj2
        simpa using hproj2
      rw [hd0']
      dsimp only
      rw [if_pos (rfl : (true : Bool) = true), if_neg Bool.false_ne_true]
      simp only [List.nil_append, List.append_nil]
      refine ih (dD ++ [x]) (dW ++ [x']) _ _ ?_ ?_
      · rw [List.map_append, List.map_append, hproj]
        simp [hkey]
      · intro y hy
        rcases List.mem_append.mp hy with hy | hy
        · exact hph y hy
        · have : y = x := by simpa using hy
          rw [this]
          exact hph2 x (hd0 ▸ rfl)

/-- C6: in dry-run mode `generate` succeeds without any LLM service,
its effect trace is empty — no LLM invocation and no file write — and
it produces exactly the documents of a real run (same output paths,
same `sourceFiles` lists) with exactly the same token estimates, every
document carrying the placeholder content. -/
theorem generate_dryRun_faithful (env : GenEnv) (cfg : GenConfig)
    (scan : ScanResult) (o : LLMOracle) :
    ∃ docsD ests docsW evW,
      generate env none cfg true scan = .ok (docsD, ests, []) ∧
      generate env (some o) cfg false scan = .ok (docsW, ests, evW) ∧
      docsD.map docKey = docsW.map docKey ∧
      (∀ x ∈ docsD, x.content = dryRunContent) := by
  obtain ⟨dD1, dW1, eA1, tW1, hps1, hps2, hproj1, hph1⟩ :=
    processSubfolders_correspond env scan.files cfg.prompt (cfg.exclude.getD [])
      (some cfg.model) o scan.grouped [] [] [] [] rfl (by simp)
  obtain ⟨d2, e2, evs2, d2', hu1, hu2, hproj2, hph2⟩ :=
    generateUngroupedDocs_correspond env scan.ungrouped cfg.outputDir cfg.prompt
      (some cfg.model) o none
  obtain ⟨d3, e3, evs3, d3', hr1, hr2, hkey3, hph3⟩ :=
    generateReadme_correspond env scan.files cfg.prompt (some cfg.model) o none
  have hgen1 : generate env none cfg true scan =
      (match processSubfolders env none scan.files cfg.prompt (cfg.exclude.getD [])
          (some cfg.model) true scan.grouped ([], [], []) with
      | .error e => .error e
      | .ok acc1 =>
        match generateUngroupedDocs env none scan.ungrouped cfg.outputDir
            cfg.prompt (some cfg.model) true with
        | .error e => .error e
        | .ok ((doc?, est?), ev) =>
          let acc2 : List GeneratedDoc × List TokenEstimate × List Event :=
            match doc? with
            | none => (acc1.1, acc1.2.1, acc1.2.2 ++ ev)
            | some doc =>
              (acc1.1 ++ [doc],
                (match est? with | some est => acc1.2.1 ++ [est] | none => acc1.2.1),
                acc1.2.2 ++ ev ++ ([] : List Event))
          match generateReadme env none scan.files cfg.prompt (some cfg.model) true with
          | .error e => .error e
          | .ok ((readmeDoc, readmeEst), ev3) =>
            .ok (acc2.1 ++ [readmeDoc], acc2.2.1 ++ [readmeEst],
              acc2.2.2 ++ ev3 ++ ([] : List Event))) := rfl
  have hgen2 : generate env (some o) cfg false scan =
      (match processSubfolders env (some o) scan.files cfg.prompt (cfg.exclude.getD [])
          (some cfg.model) false scan.grouped ([], [], []) with
      | .error e => .error e
      | .ok acc1 =>
        match generateUngroupedDocs env (some o) scan.ungrouped cfg.outputDir
            cfg.prompt (some cfg.model) false with
        | .error e => .error e
        | .ok ((doc?, est?), ev) =>
          let acc2 : List GeneratedDoc × List TokenEstimate × List Event :=
            match doc? with
            | none => (acc1.1, acc1.2.1, acc1.2.2 ++ ev)
            | some doc =>
              (acc1.1 ++ [doc],
                (match est? with | some est => acc1.2.1 ++ [est] | none => acc1.2.1),
                acc1.2.2 ++ ev ++ [.write doc.outputPath doc.content])
          match generateReadme env (some o) scan.files cfg.prompt (some cfg.model) false with
          | .error e => .error e
          | .ok ((readmeDoc, readmeEst), ev3) =>
            .ok (acc2.1 ++ [readmeDoc], acc2.2.1 ++ [readmeEst],
              acc2.2.2 ++ ev3 ++ [.write readmeDoc.outputPath readmeDoc.content])) := rfl
  rw [hgen1, hps1, hu1, hr1, hgen2, hps2, hu2, hr2]
  dsimp only
  cases hd2 : d2 with
  | none =>
    have hd2' : d2' = none := by
      rw [hd2] at hproj2
      cases hd' : d2' with
      | none => rfl
      | some x' => rw [hd'] at hproj2; cases hproj2
    rw [hd2']
    dsimp only
    refine ⟨dD1 ++ [d3], eA1 ++ [e3], dW1 ++ [d3'], _, ?_, rfl, ?_, ?_⟩
    · simp
    · rw [List.map_append, List.map_append, hproj1]
      simp [hkey3]
    · intro x hx
      rcases List.mem_append.mp hx with hx | hx
      · exact hph1 x hx
      · have : x = d3 := by simpa using hx
        rw [this]
        exact hph3
  | some x2 =>
    obtain ⟨x2', hd2'⟩ : ∃ x', d2' = some x' := by
      rw [hd2] at hproj2
      cases hd' : d2' with
      | none => rw [hd'] at hproj2; cases hproj2
      | some x' => exact ⟨x', rfl⟩
    have hkey2 : docKey x2 = docKey x2' := by
      rw [hd2, hd2'] at hproj2
      simpa using hproj2
    rw [hd2']
    dsimp only
    cases e2 with
    | none =>
      dsimp only
      refine ⟨dD1 ++ [x2] ++ [d3], eA1 ++ [e3], dW1 ++ [x2'] ++ [d3'], _,
        ?_, rfl, ?_, ?_⟩
      · simp
      · rw [List.map_append, List.map_append, List.map_append, List.map_append,
          hproj1]
        simp [hkey2, hkey3]
      · intro x hx
        rcases List.mem_append.mp hx with hx | hx
        · rcases List.mem_append.mp hx with hx | hx
          · exact hph1 x hx
          · have : x = x2 := by simpa using hx
            rw [this]
            exact hph2 x2 (hd2 ▸ rfl)
        · have : x = d3 := by simpa using hx
          rw [this]
          exact hph3
    | some est2 =>
      dsimp only
      refine ⟨dD1 ++ [x2] ++ [d3], eA1 ++ [est2] ++ [e3], dW1 ++ [x2'] ++ [d3'], _,
        ?_, rfl, ?_, ?_⟩
      · simp
      · rw [List.map_append, List.map_append, List.map_append, List.map_append,
          hproj1]
        simp [hkey2, hkey3]
      · intro x hx
        rcases List.mem_append.mp hx with hx | hx
        · rcases List.mem_append.mp hx with hx | hx
          · exact hph1 x hx
          · have : x = x2 := by simpa using hx
            rw [this]
            exact hph2 x2 (hd2 ▸ rfl)
        · have : x = d3 := by simpa using hx
          rw [this]
          exact hph3

/-- Witness for C6 at a concrete input. -/
theorem generate_dryRun_faithful_witness :
    ∃ docsD ests docsW evW,
      generate emptyGenEnv none basicConfig true emptyScan = .ok (docsD, ests, []) ∧
      generate emptyGenEnv (some constOracle) basicConfig false emptyScan =
        .ok (docsW, ests, evW) ∧
      docsD.map docKey = docsW.map docKey ∧
      (∀ x ∈ docsD, x.content = dryRunContent) :=
  generate_dryRun_faithful emptyGenEnv basicConfig emptyScan constOracle

end LLMDoc
